import Mathlib

/-!
Verification of the rlrl lexing-and-parsing toolkit.

The development shallowly embeds the two core components of the repository:

* `src/lex.rs` — `Lexer::lex`, the match-conflict-resolution algorithm.
  The external regex engine is abstracted away: a rule is represented by
  the list of matches its pattern produces on the input (start offset,
  length, and the rule handler's result on that match, the handler being a
  pure function of the matched text).  `match_info` is the `Vec<(usize,
  usize)>` coverage record, embedded as a `List (Nat × Nat)`.

* `src/parse.rs` — `TokenQueue`, the token cursor.  Mutating `&mut self`
  methods are embedded as functions returning the result together with the
  new cursor state.  `usize` arithmetic is modelled on `Nat` with explicit
  wrap-around modulo `2 ^ 64` where overflow can occur (release-profile
  semantics of Rust integer overflow); in particular `prev` computes
  `idx - 1` with wrap-around.  The distinct `anyhow` error messages are
  embedded as distinct constructors of an error type.
-/

namespace Rlrl

/-- The modulus of `usize` arithmetic (64-bit platform). -/
def USIZE : Nat := 2 ^ 64

/-- The distinct error values produced by `TokenQueue` operations, one
constructor per distinct `anyhow!` message in `src/parse.rs`, plus a
constructor standing for free-form errors raised by consumer parse
functions. -/
inductive PErr where
  /-- the TOKEN_QUEUE_EMPTY_MSG error of `peek` -/
  | emptyQueue
  /-- the TOKEN_DID_NOT_MATCH_MSG error of the `_matching` operations -/
  | didNotMatch
  /-- the error of `prev` when the previous token cannot be read -/
  | prevFail
  /-- the error of `consume_eq` when the front token is unequal -/
  | consumeEqFail
  /-- a free-form error raised by a consumer parse function -/
  | custom
deriving DecidableEq

/-- `TokenQueue<T>`: a shared token sequence plus a position index.  The
`Rc<Vec<T>>` sharing is operationally irrelevant (the sequence is
immutable), so the sequence is embedded as a plain list. -/
structure TokenQueue (T : Type) where
  tokens : List T
  idx : Nat
deriving DecidableEq

namespace TokenQueue

variable {T : Type}

/-- `TokenQueue::peek`: borrow the front token, or the empty-queue error. -/
def peek (q : TokenQueue T) : Except PErr T :=
  match q.tokens.get? q.idx with
  | some t => .ok t
  | none => .error .emptyQueue

/-- `TokenQueue::prev`: read the token at `idx - 1`, computed with `usize`
wrap-around (at `idx = 0` the subtraction wraps to `2 ^ 64 - 1`). -/
def prev (q : TokenQueue T) : Except PErr T :=
  match q.tokens.get? ((q.idx + USIZE - 1) % USIZE) with
  | some t => .ok t
  | none => .error .prevFail

/-- `TokenQueue::increment`: `idx += 1` with `usize` wrap-around. -/
def increment (q : TokenQueue T) : TokenQueue T :=
  { q with idx := (q.idx + 1) % USIZE }

/-- `TokenQueue::consume`: increment, then return `prev`. -/
def consume (q : TokenQueue T) : Except PErr T × TokenQueue T :=
  (q.increment.prev, q.increment)

/-- `TokenQueue::peek_matching`. -/
def peek_matching (q : TokenQueue T) (f : T → Bool) : Except PErr T :=
  match q.peek with
  | .error e => .error e
  | .ok token => if !(f token) then .error .didNotMatch else .ok token

/-- `TokenQueue::consume_matching`: the guard is
`!self.peek().map_or(false, f)`; only when the guard passes does the queue
increment and return `prev`. -/
def consume_matching (q : TokenQueue T) (f : T → Bool) :
    Except PErr T × TokenQueue T :=
  if !(match q.peek with | .ok t => f t | .error _ => false) then
    (.error .didNotMatch, q)
  else
    (q.increment.prev, q.increment)

/-- `TokenQueue::go_to`: set the index directly. -/
def go_to (q : TokenQueue T) (i : Nat) : TokenQueue T :=
  { q with idx := i }

/-- `TokenQueue::get_idx`. -/
def get_idx (q : TokenQueue T) : Nat :=
  q.idx

/-- `TokenQueue::is_consumed`. -/
def is_consumed (q : TokenQueue T) : Bool :=
  q.idx == q.tokens.length

/-- `TokenQueue::consume_eq`: consume the front token when it equals
`token`, else fail (propagating `peek`'s error when exhausted). -/
def consume_eq [DecidableEq T] (q : TokenQueue T) (token : T) :
    Except PErr Unit × TokenQueue T :=
  match q.peek with
  | .error e => (.error e, q)
  | .ok front =>
    if front = token then (.ok (), q.increment)
    else (.error .consumeEqFail, q)

/-- `TokenQueue::parse`: run `parse_fn` on the queue (the Rust `ParseFn`
receives `&TokenQueue`, an immutable borrow, so it cannot mutate the
caller's queue); on success commit the returned index with `go_to`, on
failure leave the queue untouched. -/
def parse {A : Type} (q : TokenQueue T)
    (parse_fn : TokenQueue T → Except PErr (A × Nat)) :
    Except PErr A × TokenQueue T :=
  match parse_fn q with
  | .ok (val, index) => (.ok val, q.go_to index)
  | .error e => (.error e, q)

/-- `TokenQueue::parse_with`: as `parse`, threading a read-only context. -/
def parse_with {A C : Type} (q : TokenQueue T)
    (parse_with_fn : TokenQueue T → C → Except PErr (A × Nat)) (context : C) :
    Except PErr A × TokenQueue T :=
  match parse_with_fn q context with
  | .ok (val, index) => (.ok val, q.go_to index)
  | .error e => (.error e, q)

end TokenQueue

/-! ## The lexer (`src/lex.rs`) -/

/-- `LexResult<T>`: outcome of a rule handler on one regex match. -/
inductive LexResult (T : Type) where
  | token : T → LexResult T
  | ignore : LexResult T
  | error : LexResult T
deriving DecidableEq

/-- `LexerMatch<T>`: an accepted match (token, start offset, length). -/
structure LexerMatch (T : Type) where
  token : T
  start : Nat
  len : Nat
deriving DecidableEq

/-- One regex match of a rule against the input, as delivered by
`Regex::find_iter`, together with the value the rule's handler returns on
it.  The handler is a pure function of the matched text, so its result can
be recorded with the match; `Lexer::lex` consults it only for accepted
candidates. -/
structure RuleMatch (T : Type) where
  start : Nat
  len : Nat
  res : LexResult T
deriving DecidableEq

/-- The only error `Lexer::lex` itself can return: a handler's error,
propagated by the early `return Err(e)`. -/
inductive LexErr where
  | handlerError
deriving DecidableEq

/-- The mutable state of `Lexer::lex`: the `match_info` coverage record
(`(start, len)` of the claim owning each byte offset, `(0, 0)` when
unclaimed) and the accepted-match list `matches`. -/
structure LexState (T : Type) where
  match_info : List (Nat × Nat)
  /-- the `matches` accepted-match vector (`matches` is reserved in Lean) -/
  matchList : List (LexerMatch T)
deriving DecidableEq

/-- The loop `for i in s..s+l { match_info[i] = v }` (out-of-range writes
cannot occur in `lex`, where every index written is in bounds;
`List.set` ignores them). -/
def setRange (v : Nat × Nat) : List (Nat × Nat) → Nat → Nat → List (Nat × Nat)
  | mi, _, 0 => mi
  | mi, s, l + 1 => setRange v (mi.set s v) (s + 1) l

/-- The inner loop of `Lexer::lex` over the byte offsets covered by one
candidate match of length `mlen`: reading `match_info[i]` as
`(confl_start, confl_len)`, a conflicting claim with `confl_len >= mlen`
rejects the candidate and stops the scan (`takes_priority = false; break`),
while a shorter nonempty claim is erased from `match_info` and its match
filtered out of `matches` before the scan continues.  Returns
`takes_priority` and the (possibly mutated) state. -/
def scanOffsets {T : Type} (mlen : Nat) : List Nat → LexState T → Bool × LexState T
  | [], st => (true, st)
  | i :: rest, st =>
    if mlen ≤ (st.match_info.getD i (0, 0)).2 then (false, st)
    else if 0 < (st.match_info.getD i (0, 0)).2 then
      scanOffsets mlen rest
        ⟨setRange (0, 0) st.match_info (st.match_info.getD i (0, 0)).1
            (st.match_info.getD i (0, 0)).2,
          st.matchList.filter fun m =>
            !(m.start == (st.match_info.getD i (0, 0)).1 &&
              m.len == (st.match_info.getD i (0, 0)).2)⟩
    else scanOffsets mlen rest st

/-- Processing of one candidate match in `Lexer::lex`: run the offset scan;
when the candidate takes priority, claim its whole range in `match_info`
and dispatch on the handler result (append the token, ignore, or abort the
whole call with the handler's error); otherwise keep the state the scan
left behind. -/
def processMatch {T : Type} (rm : RuleMatch T) (st : LexState T) :
    Except LexErr (LexState T) :=
  match scanOffsets rm.len (List.range' rm.start rm.len) st with
  | (false, st1) => .ok st1
  | (true, st1) =>
    match rm.res with
    | .token t =>
      .ok ⟨setRange (rm.start, rm.len) st1.match_info rm.start rm.len,
        st1.matchList ++ [⟨t, rm.start, rm.len⟩]⟩
    | .ignore =>
      .ok ⟨setRange (rm.start, rm.len) st1.match_info rm.start rm.len,
        st1.matchList⟩
    | .error => .error .handlerError

/-- The loop of `Lexer::lex` over one rule's matches. -/
def runMatches {T : Type} : List (RuleMatch T) → LexState T → Except LexErr (LexState T)
  | [], st => .ok st
  | rm :: rest, st =>
    match processMatch rm st with
    | .ok st1 => runMatches rest st1
    | .error e => .error e

/-- The outer loop of `Lexer::lex` over the rules in registration order;
each rule is represented by the match list its pattern produces. -/
def runRules {T : Type} : List (List (RuleMatch T)) → LexState T → Except LexErr (LexState T)
  | [], st => .ok st
  | r :: rs, st =>
    match runMatches r st with
    | .ok st1 => runRules rs st1
    | .error e => .error e

/-- The initial state of `Lexer::lex` on an input of `n` bytes:
`vec![(0, 0); s.len()]` and no matches. -/
def initState (T : Type) (n : Nat) : LexState T :=
  ⟨List.replicate n (0, 0), []⟩

/-- Stable insertion of `a` into `l`: `a` is placed before the first
element `b` with `le a b`. -/
def insertBy {α : Type} (le : α → α → Bool) (a : α) : List α → List α
  | [] => [a]
  | b :: l => if le a b then a :: b :: l else b :: insertBy le a l

/-- Stable sort by `le`; embeds `Vec::sort_by` (a stable sort — and the
stable sort of a list under a total comparator is unique, so any stable
sorting algorithm denotes the same function). -/
def sortBy {α : Type} (le : α → α → Bool) : List α → List α
  | [] => []
  | a :: l => insertBy le a (sortBy le l)

/-- The accepted matches of `Lexer::lex`, sorted by start offset
(`matches.sort_by(|a, b| a.start.cmp(&b.start))`). -/
def lexMatches {T : Type} (rules : List (List (RuleMatch T))) (n : Nat) :
    Except LexErr (List (LexerMatch T)) :=
  match runRules rules (initState T n) with
  | .ok st => .ok (sortBy (fun a b => decide (a.start ≤ b.start)) st.matchList)
  | .error e => .error e

/-- `Lexer::lex` on an input of `n` bytes: the tokens of the sorted
accepted matches.  Note the code returns `Ok` directly after sorting —
there is no coverage check of `match_info` before returning. -/
def lex {T : Type} (rules : List (List (RuleMatch T))) (n : Nat) :
    Except LexErr (List T) :=
  match lexMatches rules n with
  | .ok ms => .ok (ms.map fun m => m.token)
  | .error e => .error e

/-! ## Claim-formalization helpers -/

/-- The final accepted-match list of a `lex` run (empty on abort). -/
def finalMatches {T : Type} (rules : List (List (RuleMatch T))) (n : Nat) :
    List (LexerMatch T) :=
  match runRules rules (initState T n) with
  | .ok st => st.matchList
  | .error _ => []

/-- The final coverage record of a `lex` run (empty on abort). -/
def finalInfo {T : Type} (rules : List (List (RuleMatch T))) (n : Nat) :
    List (Nat × Nat) :=
  match runRules rules (initState T n) with
  | .ok st => st.match_info
  | .error _ => []

/-- The accepted-match list held in a `processMatch` result. -/
def stateMatches {T : Type} : Except LexErr (LexState T) → List (LexerMatch T)
  | .ok st => st.matchList
  | .error _ => []

/-- Whether a candidate's span is retained in the final accepted-match
set. -/
def retainedB {T : Type} (rules : List (List (RuleMatch T))) (n : Nat)
    (c : RuleMatch T) : Bool :=
  (finalMatches rules n).any fun m => m.start == c.start && m.len == c.len

/-- Whether two candidates' offset ranges overlap. -/
def overlapB {T : Type} (a b : RuleMatch T) : Bool :=
  decide (a.start < b.start + b.len) && decide (b.start < a.start + a.len)

/-- The priority property of claim C3, as stated: for any two candidate
matches whose ranges overlap, of which exactly one is retained in the
final accepted-match set, the retained one has strictly greater length,
or equal length and an earlier-registered rule. -/
def claimC3holds {T : Type} (rules : List (List (RuleMatch T))) (n : Nat) : Bool :=
  rules.enum.all fun ri => ri.2.all fun ci =>
    rules.enum.all fun rj => rj.2.all fun cj =>
      !(overlapB ci cj && retainedB rules n cj && !(retainedB rules n ci)) ||
        (decide (ci.len < cj.len) ||
          (cj.len == ci.len && decide (rj.1 < ri.1)))

/-- Well-formedness of the coverage record: every claimed cell carries a
claim whose range contains the cell, and every cell of that claim's range
is in bounds and carries the same claim.  This holds of every record
reachable in `lex` and is the hypothesis under which the rejection
decision is exactly characterised. -/
def WFmi (mi : List (Nat × Nat)) : Prop :=
  ∀ i, i < mi.length → 0 < (mi.getD i (0, 0)).2 →
    (mi.getD i (0, 0)).1 ≤ i ∧ i < (mi.getD i (0, 0)).1 + (mi.getD i (0, 0)).2 ∧
      ∀ j, j < (mi.getD i (0, 0)).1 + (mi.getD i (0, 0)).2 →
        (mi.getD i (0, 0)).1 ≤ j →
          j < mi.length ∧ mi.getD j (0, 0) = mi.getD i (0, 0)

/-! ## Concrete instances used by counterexamples and witnesses -/

/-- The calculator token type of `src/calc.rs` (numeric payload as the
numerator value; the floating-point representation is irrelevant to the
lexing algorithm). -/
inductive CalcTok where
  | add | sub | mul | div
  | num : Nat → CalcTok
deriving DecidableEq

/-- The calculator rule set of `src/calc.rs` applied to the input
`"5 & 6"` (5 bytes, `&` at offset 2): whitespace matches at offsets 1 and
3, the operator rules match nowhere, the number rule matches `5` at 0 and
`6` at 4.  No rule matches the `&`. -/
def calcRules : List (List (RuleMatch CalcTok)) :=
  [[⟨1, 1, .ignore⟩, ⟨3, 1, .ignore⟩],
   [], [], [], [],
   [⟨0, 1, .token (.num 5)⟩, ⟨4, 1, .token (.num 6)⟩]]

/-- State of `lex` after two accepted matches: a length-1 claim `(0, 1)`
with token 10 and a length-2 claim `(1, 2)` with token 20, on a 3-byte
input. -/
def stC2 : LexState Nat :=
  ⟨[(0, 1), (1, 2), (1, 2)], [⟨10, 0, 1⟩, ⟨20, 1, 2⟩]⟩

/-- A candidate of length 2 at offset 0: it first erases the shorter claim
`(0, 1)` at offset 0, then is rejected at offset 1 by the equal-length
claim `(1, 2)`. -/
def candC2 : RuleMatch Nat := ⟨0, 2, .token 30⟩

/-- The rule set of the C2 counterexample: the first two rules produce the
claims of `stC2`, the third produces `candC2`. -/
def rulesC2 : List (List (RuleMatch Nat)) :=
  [[⟨0, 1, .token 10⟩], [⟨1, 2, .token 20⟩], [⟨0, 2, .token 30⟩]]

/-- The rule set of the C3 counterexample on a 3-byte input: rule 0
matches `(0, 1)`, rule 1 matches `(1, 2)`, rule 2 matches `(0, 2)` (it is
rejected, but erases rule 0's claim on the way), rule 3 matches `(0, 1)`
again and is accepted into the hole. -/
def rulesC3 : List (List (RuleMatch Nat)) :=
  [[⟨0, 1, .token 1⟩], [⟨1, 2, .token 2⟩], [⟨0, 2, .token 3⟩],
   [⟨0, 1, .token 4⟩]]

/-- A small rule set whose matches arrive out of source order: rule 0
matches at offset 2, rule 1 at offset 0. -/
def rulesC9 : List (List (RuleMatch Nat)) :=
  [[⟨2, 1, .token 1⟩], [⟨0, 1, .token 2⟩]]

/-! ## Supporting lemmas for the lexer -/

theorem getD_out {l : List (Nat × Nat)} {i : Nat} (h : l.length ≤ i) :
    l.getD i (0, 0) = (0, 0) := by
  rw [List.getD_eq_getElem?_getD, List.getElem?_eq_none h]
  rfl

theorem length_setRange (v : Nat × Nat) :
    ∀ (l : Nat) (mi : List (Nat × Nat)) (s : Nat),
      (setRange v mi s l).length = mi.length := by
  intro l
  induction l with
  | zero => intro mi s; rfl
  | succ l ih =>
    intro mi s
    rw [setRange, ih, List.length_set]

/-- Reading a cell of the coverage record after a range write: the new
value inside the (in-bounds part of the) range, the old value outside. -/
theorem getD_setRange (v : Nat × Nat) :
    ∀ (l : Nat) (mi : List (Nat × Nat)) (s i : Nat),
      (setRange v mi s l).getD i (0, 0) =
        if s ≤ i ∧ i < s + l ∧ i < mi.length then v
        else mi.getD i (0, 0) := by
  intro l
  induction l with
  | zero =>
    intro mi s i
    rw [setRange, if_neg (by omega)]
  | succ l ih =>
    intro mi s i
    rw [setRange, ih, List.length_set]
    by_cases hi : i = s
    · subst hi
      by_cases hlen : i < mi.length
      · rw [if_neg (by omega), if_pos ⟨Nat.le_refl i, by omega, hlen⟩,
          List.getD_eq_getElem?_getD, List.getElem?_set_self hlen]
        rfl
      · rw [if_neg (by omega), if_neg (by omega), List.getD_eq_getElem?_getD,
          List.getD_eq_getElem?_getD, List.getElem?_set, if_pos rfl,
          if_neg hlen, List.getElem?_eq_none (by omega)]
    · have hset : (mi.set s v).getD i (0, 0) = mi.getD i (0, 0) := by
        rw [List.getD_eq_getElem?_getD, List.getD_eq_getElem?_getD,
          List.getElem?_set_ne (fun hh => hi hh.symm)]
      by_cases hcond : s + 1 ≤ i ∧ i < s + 1 + l ∧ i < mi.length
      · rw [if_pos hcond, if_pos (by omega)]
      · rw [if_neg hcond, hset, if_neg (by omega)]

/-- When every offset the scan will visit is either unclaimed or claimed
by a match of length at least `mlen`, the scan never erases anything: the
state comes back unchanged. -/
theorem scan_frame {T : Type} (mlen : Nat) :
    ∀ (offs : List Nat) (st : LexState T),
      (∀ i ∈ offs, (st.match_info.getD i (0, 0)).2 = 0 ∨
        mlen ≤ (st.match_info.getD i (0, 0)).2) →
      (scanOffsets mlen offs st).2 = st := by
  intro offs
  induction offs with
  | nil => intro st _; rfl
  | cons i rest ih =>
    intro st h
    rw [scanOffsets]
    rcases h i (List.mem_cons_self i rest) with h0 | hbig
    · by_cases hm : mlen ≤ (st.match_info.getD i (0, 0)).2
      · rw [if_pos hm]
      · rw [if_neg hm, if_neg (by omega)]
        exact ih st (fun j hj => h j (List.mem_cons_of_mem i hj))
    · rw [if_pos hbig]

/-- Soundness of rejection: a rejected scan found, in the state it was
started from, an offset claimed by a match of length at least `mlen`
(erasures performed along the way only write `(0, 0)`, so the rejecting
claim was present from the start). -/
theorem scan_reject_sound {T : Type} (mlen : Nat) (hm : 0 < mlen) :
    ∀ (offs : List Nat) (st : LexState T),
      (scanOffsets mlen offs st).1 = false →
      ∃ i ∈ offs, mlen ≤ (st.match_info.getD i (0, 0)).2 := by
  intro offs
  induction offs with
  | nil => intro st h; cases h
  | cons i rest ih =>
    intro st h
    rw [scanOffsets] at h
    by_cases hc : mlen ≤ (st.match_info.getD i (0, 0)).2
    · exact ⟨i, List.mem_cons_self i rest, hc⟩
    · rw [if_neg hc] at h
      by_cases hz : 0 < (st.match_info.getD i (0, 0)).2
      · rw [if_pos hz] at h
        obtain ⟨j, hj, hbig⟩ := ih _ h
        refine ⟨j, List.mem_cons_of_mem i hj, ?_⟩
        dsimp only at hbig
        rw [getD_setRange] at hbig
        by_cases hrange : (st.match_info.getD i (0, 0)).1 ≤ j ∧
            j < (st.match_info.getD i (0, 0)).1 + (st.match_info.getD i (0, 0)).2 ∧
            j < st.match_info.length
        · rw [if_pos hrange] at hbig
          simp at hbig
          omega
        · rw [if_neg hrange] at hbig
          exact hbig
      · rw [if_neg hz] at h
        obtain ⟨j, hj, hbig⟩ := ih _ h
        exact ⟨j, List.mem_cons_of_mem i hj, hbig⟩

/-- Erasing one whole claim of a well-formed coverage record keeps it
well-formed. -/
theorem WFmi_clear {mi : List (Nat × Nat)} (hwf : WFmi mi) {i cs cl : Nat}
    (hi : i < mi.length) (hc : mi.getD i (0, 0) = (cs, cl)) (hpos : 0 < cl) :
    WFmi (setRange (0, 0) mi cs cl) := by
  have hw := hwf i hi (by rw [hc]; exact hpos)
  rw [hc] at hw
  obtain ⟨hs, hlt, hcells⟩ := hw
  intro k hk hkpos
  rw [length_setRange] at hk
  have hr_k : ¬(cs ≤ k ∧ k < cs + cl ∧ k < mi.length) := by
    intro hr
    rw [getD_setRange, if_pos hr] at hkpos
    simp at hkpos
  have hk_eq : (setRange (0, 0) mi cs cl).getD k (0, 0) = mi.getD k (0, 0) := by
    rw [getD_setRange, if_neg hr_k]
  rw [hk_eq] at hkpos
  simp only [hk_eq]
  obtain ⟨h1, h2, h3⟩ := hwf k hk hkpos
  refine ⟨h1, h2, fun j hj1 hj2 => ?_⟩
  obtain ⟨hjlen, hjval⟩ := h3 j hj1 hj2
  rw [length_setRange]
  refine ⟨hjlen, ?_⟩
  rw [getD_setRange]
  by_cases hjr : cs ≤ j ∧ j < cs + cl ∧ j < mi.length
  · exfalso
    have hj_c := (hcells j (by omega) hjr.1).2
    rw [hjval] at hj_c
    apply hr_k
    rw [hj_c] at h1 h2
    exact ⟨h1, h2, hk⟩
  · rw [if_neg hjr]
    exact hjval

/-- Erasing one whole claim that is strictly shorter than `mlen` cannot
remove a claim of length at least `mlen` from a well-formed record. -/
theorem big_preserved {mi : List (Nat × Nat)} (hwf : WFmi mi)
    {i cs cl mlen j : Nat} (hi : i < mi.length)
    (hc : mi.getD i (0, 0) = (cs, cl)) (hpos : 0 < cl) (hsmall : cl < mlen)
    (hbig : mlen ≤ (mi.getD j (0, 0)).2) :
    mlen ≤ ((setRange (0, 0) mi cs cl).getD j (0, 0)).2 := by
  rw [getD_setRange]
  by_cases hr : cs ≤ j ∧ j < cs + cl ∧ j < mi.length
  · exfalso
    have hw := hwf i hi (by rw [hc]; exact hpos)
    rw [hc] at hw
    obtain ⟨-, -, hcells⟩ := hw
    have hj_c := (hcells j (by omega) hr.1).2
    rw [hj_c] at hbig
    omega
  · rw [if_neg hr]
    exact hbig

/-- Completeness of rejection over a well-formed record: if some offset
the scan visits is claimed by a match of length at least `mlen`, the scan
rejects — shorter claims erased on the way cannot take the big claim's
cells with them. -/
theorem scan_reject_complete {T : Type} (mlen : Nat) :
    ∀ (offs : List Nat) (st : LexState T), WFmi st.match_info →
      (∃ i ∈ offs, mlen ≤ (st.match_info.getD i (0, 0)).2) →
      (scanOffsets mlen offs st).1 = false := by
  intro offs
  induction offs with
  | nil =>
    intro st _ hex
    obtain ⟨i, hi, -⟩ := hex
    cases hi
  | cons i rest ih =>
    intro st hwf hex
    obtain ⟨j, hj, hbig⟩ := hex
    rw [scanOffsets]
    by_cases hc : mlen ≤ (st.match_info.getD i (0, 0)).2
    · rw [if_pos hc]
    · rw [if_neg hc]
      have hjr : j ∈ rest := by
        rcases List.mem_cons.mp hj with hji | hjr
        · exfalso; rw [hji] at hbig; exact hc hbig
        · exact hjr
      by_cases hz : 0 < (st.match_info.getD i (0, 0)).2
      · rw [if_pos hz]
        have hilen : i < st.match_info.length := by
          by_contra hge
          rw [getD_out (by omega)] at hz
          simp at hz
        apply ih
        · exact WFmi_clear hwf hilen rfl hz
        · exact ⟨j, hjr, big_preserved hwf hilen rfl hz (by omega) hbig⟩
      · rw [if_neg hz]
        exact ih st hwf ⟨j, hjr, hbig⟩

/-- Stable insertion produces no new elements. -/
theorem mem_insertBy {α : Type} (le : α → α → Bool) (a : α) :
    ∀ (l : List α) (x : α), x ∈ insertBy le a l → x = a ∨ x ∈ l := by
  intro l
  induction l with
  | nil =>
    intro x hx
    rw [insertBy] at hx
    exact Or.inl (List.mem_singleton.mp hx)
  | cons b l ih =>
    intro x hx
    rw [insertBy] at hx
    by_cases hab : le a b = true
    · rw [if_pos hab] at hx
      rcases List.mem_cons.mp hx with h1 | h2
      · exact Or.inl h1
      · exact Or.inr h2
    · rw [if_neg hab] at hx
      rcases List.mem_cons.mp hx with h1 | h2
      · refine Or.inr ?_
        rw [h1]
        exact List.mem_cons_self b l
      · rcases ih x h2 with h3 | h4
        · exact Or.inl h3
        · exact Or.inr (List.mem_cons_of_mem b h4)

/-- Stable insertion into a sorted list keeps it sorted, for a total and
transitive comparator. -/
theorem pairwise_insertBy {α : Type} {le : α → α → Bool}
    (htot : ∀ a b, le a b = true ∨ le b a = true)
    (htrans : ∀ a b c, le a b = true → le b c = true → le a c = true)
    (a : α) :
    ∀ {l : List α}, l.Pairwise (fun x y => le x y = true) →
      (insertBy le a l).Pairwise (fun x y => le x y = true) := by
  intro l
  induction l with
  | nil =>
    intro _
    rw [insertBy]
    exact List.pairwise_singleton _ a
  | cons b l ih =>
    intro hp
    rw [insertBy]
    rcases List.pairwise_cons.mp hp with ⟨hb, hl⟩
    by_cases hab : le a b = true
    · rw [if_pos hab]
      refine List.pairwise_cons.mpr ⟨?_, hp⟩
      intro y hy
      rcases List.mem_cons.mp hy with h1 | h2
      · rw [h1]; exact hab
      · exact htrans a b y hab (hb y h2)
    · rw [if_neg hab]
      refine List.pairwise_cons.mpr ⟨?_, ih hl⟩
      intro y hy
      rcases mem_insertBy le a l y hy with h1 | h2
      · rw [h1]
        rcases htot a b with h | h
        · exact absurd h hab
        · exact h
      · exact hb y h2

/-- The stable sort is sorted, for a total and transitive comparator. -/
theorem pairwise_sortBy {α : Type} (le : α → α → Bool)
    (htot : ∀ a b, le a b = true ∨ le b a = true)
    (htrans : ∀ a b c, le a b = true → le b c = true → le a c = true) :
    ∀ l : List α, (sortBy le l).Pairwise (fun x y => le x y = true) := by
  intro l
  induction l with
  | nil => exact List.Pairwise.nil
  | cons a l ih =>
    rw [sortBy]
    exact pairwise_insertBy htot htrans a ih

/-! ## Claims C1 to C3 and C9: the lexer -/

/-- Claim C1 (code evaluation at the failing input): on the calculator
rule set and the input `5 & 6` — whose offset 2, the `&`, is claimed by no
match — `lex` returns `Ok([Num 5, Num 6])` instead of an unmatched-input
error: the coverage verification step claimed by the specification (and
relied on by the repository's own `calc.rs` test, which asserts that this
very call `is_err()`) does not exist in `Lexer::lex`. -/
theorem lex_missing_coverage_check :
    lex calcRules 5 = .ok [CalcTok.num 5, CalcTok.num 6] ∧
    (finalInfo calcRules 5).getD 2 (0, 0) = (0, 0) ∧
    (finalInfo calcRules 5).length = 5 :=
  ⟨rfl, rfl, rfl⟩

/-- Claim C2, counterexample: starting from the reachable state `stC2`
(claims `(0, 1)` with token 10 and `(1, 2)` with token 20), the candidate
`candC2` of length 2 at offset 0 is rejected (offset 1 carries an
equal-length claim), yet processing it erased the claim `(0, 1)` and
dropped its already-accepted token 10 from the accepted-match list. -/
theorem reject_frame_counterexample :
    runRules (rulesC2.take 2) (initState Nat 3) = .ok stC2 ∧
    (scanOffsets candC2.len (List.range' candC2.start candC2.len) stC2).1 = false ∧
    processMatch candC2 stC2 =
      .ok ⟨[(0, 0), (1, 2), (1, 2)], [⟨20, 1, 2⟩]⟩ ∧
    processMatch candC2 stC2 ≠ .ok stC2 :=
  ⟨rfl, by decide, rfl, by
    intro h
    have h2 : (Except.ok (⟨[(0, 0), (1, 2), (1, 2)], [⟨20, 1, 2⟩]⟩ : LexState Nat) :
        Except LexErr (LexState Nat)) = .ok stC2 := by rw [← h]; rfl
    have h3 := congrArg LexState.matchList (Except.ok.inj h2)
    revert h3
    decide⟩

/-- Claim C2 (amended): a rejected candidate leaves the coverage record
and the accepted-match list unchanged provided every offset it covers is
either unclaimed or claimed by a match of length at least the candidate's;
in general, shorter claims scanned before the offset that causes the
rejection are erased (and their tokens dropped) even though the candidate
is rejected. -/
theorem reject_frame_amended {T : Type} (rm : RuleMatch T) (st : LexState T)
    (hpure : ∀ i ∈ List.range' rm.start rm.len,
      (st.match_info.getD i (0, 0)).2 = 0 ∨
        rm.len ≤ (st.match_info.getD i (0, 0)).2)
    (hrej : (scanOffsets rm.len (List.range' rm.start rm.len) st).1 = false) :
    processMatch rm st = .ok st := by
  have hstate := scan_frame rm.len (List.range' rm.start rm.len) st hpure
  unfold processMatch
  have hpair : scanOffsets rm.len (List.range' rm.start rm.len) st = (false, st) := by
    cases hsc : scanOffsets rm.len (List.range' rm.start rm.len) st with
    | mk b s =>
      rw [hsc] at hrej hstate
      simp at hrej hstate
      rw [hrej, hstate]
  rw [hpair]

/-- Witness for the amended C2: a candidate rejected at its first offset
by an equal-length claim leaves the state untouched. -/
theorem reject_frame_amended_witness :
    processMatch (⟨1, 2, .token 9⟩ : RuleMatch Nat)
        ⟨[(0, 2), (0, 2), (0, 0)], [⟨7, 0, 2⟩]⟩ =
      .ok ⟨[(0, 2), (0, 2), (0, 0)], [⟨7, 0, 2⟩]⟩ :=
  reject_frame_amended ⟨1, 2, .token 9⟩ ⟨[(0, 2), (0, 2), (0, 0)], [⟨7, 0, 2⟩]⟩
    (by decide) (by decide)

/-- Claim C3, counterexample: on `rulesC3` the retained matches are the
token-2 match `(1, 2)` and the token-4 match `(0, 1)`, while rule 2's
rejected candidate `(0, 2)` overlaps the retained `(0, 1)` and is strictly
longer — the global priority property of the claim is violated (the
rejected length-2 candidate erased rule 0's claim before being rejected,
and the later, shorter rule-3 match took the freed offset). -/
theorem priority_counterexample :
    claimC3holds rulesC3 3 = false ∧ lex rulesC3 3 = .ok [4, 2] :=
  ⟨by decide, rfl⟩

/-- Claim C3 (amended): the priority rule holds locally, per candidate:
over a well-formed coverage record, a candidate of positive length is
rejected exactly when some offset it covers is currently claimed by a
match of length greater than or equal to its own.  The global form of the
claim — comparing a retained match against every overlapping candidate of
the whole run — fails, because a rejected candidate first erases the
shorter claims it overlaps, which can hand their offsets to a shorter or
later-registered candidate. -/
theorem priority_local_amended {T : Type} (rm : RuleMatch T)
    (st : LexState T) (hlen : 0 < rm.len) (hwf : WFmi st.match_info) :
    (scanOffsets rm.len (List.range' rm.start rm.len) st).1 = false ↔
      ∃ i ∈ List.range' rm.start rm.len,
        rm.len ≤ (st.match_info.getD i (0, 0)).2 :=
  ⟨scan_reject_sound rm.len hlen _ st,
   scan_reject_complete rm.len _ st hwf⟩

set_option synthInstance.maxSize 1000 in
/-- Witness for the amended C3 on a concrete well-formed record. -/
theorem priority_local_amended_witness :
    ((scanOffsets 2 (List.range' 0 2)
        (⟨[(0, 1), (1, 2), (1, 2)], []⟩ : LexState Nat)).1 = false ↔
      ∃ i ∈ List.range' 0 2,
        2 ≤ (([(0, 1), (1, 2), (1, 2)] : List (Nat × Nat)).getD i (0, 0)).2) :=
  priority_local_amended ⟨0, 2, .token 5⟩ ⟨[(0, 1), (1, 2), (1, 2)], []⟩
    (by decide) (by unfold WFmi; decide)

/-- Claim C9: whenever `lex` succeeds, the accepted matches it returns the
tokens of are sorted by start offset ascending. -/
theorem lex_sorted {T : Type} (rules : List (List (RuleMatch T))) (n : Nat)
    (ms : List (LexerMatch T)) (h : lexMatches rules n = .ok ms) :
    ms.Pairwise (fun a b => a.start ≤ b.start) := by
  unfold lexMatches at h
  cases hr : runRules rules (initState T n) with
  | error e => rw [hr] at h; cases h
  | ok st =>
    rw [hr] at h
    injection h with h'
    rw [← h']
    have hp := pairwise_sortBy
      (fun a b : LexerMatch T => decide (a.start ≤ b.start))
      (fun a b => by
        rcases Nat.le_total a.start b.start with hab | hab
        · exact Or.inl (decide_eq_true hab)
        · exact Or.inr (decide_eq_true hab))
      (fun a b c h1 h2 =>
        decide_eq_true (Nat.le_trans (of_decide_eq_true h1) (of_decide_eq_true h2)))
      st.matchList
    exact hp.imp (fun hab => of_decide_eq_true hab)

/-- Witness for C9 on a rule set whose matches arrive out of source
order. -/
theorem lex_sorted_witness :
    List.Pairwise (fun a b => a.start ≤ b.start)
      ([⟨2, 0, 1⟩, ⟨1, 2, 1⟩] : List (LexerMatch Nat)) :=
  lex_sorted rulesC9 3 [⟨2, 0, 1⟩, ⟨1, 2, 1⟩] rfl

/-! ## Supporting lemmas for the token cursor -/

theorem usize_pos : 0 < USIZE := by decide

/-- When `idx + 1` does not overflow, `increment` is a plain successor. -/
theorem increment_eq {T : Type} (q : TokenQueue T) (h : q.idx + 1 < USIZE) :
    q.increment = { q with idx := q.idx + 1 } := by
  simp [TokenQueue.increment, Nat.mod_eq_of_lt h]

/-- The wrap-around `idx - 1` computation of `prev`, at a non-zero index
below the modulus, is a plain predecessor. -/
theorem prev_index_eq (i : Nat) (h1 : 0 < i) (h2 : i < USIZE) :
    (i + USIZE - 1) % USIZE = i - 1 := by
  have : i + USIZE - 1 = (i - 1) + USIZE := by omega
  rw [this, Nat.add_mod_right, Nat.mod_eq_of_lt (by omega)]

/-- A successful `peek` means the index is in bounds. -/
theorem lt_length_of_get?_eq_some {T : Type} {l : List T} {n : Nat} {t : T}
    (h : l.get? n = some t) : n < l.length := by
  by_contra hge
  rw [List.get?_eq_getElem?, List.getElem?_eq_none (by omega)] at h
  cases h

/-! ## Claims C4 to C8 and C10: the token cursor -/

/-- Claim C4: for every sub-parser invoked through `parse` or
`parse_with`, success commits the caller's position to exactly the
returned final position, and failure leaves the caller's queue (hence its
position) unchanged. -/
theorem parse_commit_and_backtrack {T A C : Type} (q : TokenQueue T)
    (pf : TokenQueue T → Except PErr (A × Nat))
    (pwf : TokenQueue T → C → Except PErr (A × Nat)) (ctx : C) :
    (∀ v i, pf q = .ok (v, i) → q.parse pf = (.ok v, { q with idx := i })) ∧
    (∀ e, pf q = .error e → q.parse pf = (.error e, q)) ∧
    (∀ v i, pwf q ctx = .ok (v, i) →
      q.parse_with pwf ctx = (.ok v, { q with idx := i })) ∧
    (∀ e, pwf q ctx = .error e → q.parse_with pwf ctx = (.error e, q)) := by
  refine ⟨fun v i h => ?_, fun e h => ?_, fun v i h => ?_, fun e h => ?_⟩ <;>
    simp [TokenQueue.parse, TokenQueue.parse_with, TokenQueue.go_to, h]

/-- Witness for C4 at a concrete queue, with a succeeding and a failing
sub-parser. -/
theorem parse_commit_and_backtrack_witness :
    TokenQueue.parse ⟨[(1 : Nat), 2, 3], 0⟩
        (fun _ => Except.ok ((42 : Nat), 2)) = (.ok 42, ⟨[1, 2, 3], 2⟩) ∧
    TokenQueue.parse_with ⟨[(1 : Nat), 2, 3], 1⟩
        (fun _ (_ : Nat) => (Except.error .custom : Except PErr (Nat × Nat)))
        0 = (.error .custom, ⟨[1, 2, 3], 1⟩) := by
  constructor
  · exact (parse_commit_and_backtrack ⟨[1, 2, 3], 0⟩ (fun _ => .ok (42, 2))
      (fun _ (_ : Nat) => .error .custom) 0).1 42 2 rfl
  · exact (parse_commit_and_backtrack ⟨[1, 2, 3], 1⟩ (fun _ => .ok (42, 2))
      (fun _ (_ : Nat) => .error .custom) 0).2.2.2 .custom rfl

/-- Claim C5, counterexample: on an exhausted cursor `consume_matching`
returns the token-did-not-match error (the guard
`!self.peek().map_or(false, f)` turns `peek`'s failure into a predicate
mismatch), which is a different error from the empty-queue error the
claim requires. -/
theorem consume_matching_empty_counterexample :
    (TokenQueue.consume_matching ⟨([] : List Nat), 0⟩ (fun _ => true)).1 =
      .error .didNotMatch ∧
    (TokenQueue.consume_matching ⟨([] : List Nat), 0⟩ (fun _ => true)).1 ≠
      .error .emptyQueue :=
  ⟨rfl, by
    intro h
    have h2 : (Except.error PErr.didNotMatch : Except PErr Nat) =
        .error .emptyQueue := by rw [← h]; rfl
    have h3 := Except.error.inj h2
    revert h3
    decide⟩

/-- Claim C5 (amended): `consume_matching` on a cursor whose position
equals the sequence length fails, for every predicate, with the
token-did-not-match (predicate-mismatch) error — not the empty-queue
error — and leaves the cursor unchanged. -/
theorem consume_matching_exhausted {T : Type} (q : TokenQueue T)
    (f : T → Bool) (h : q.idx = q.tokens.length) :
    q.consume_matching f = (.error .didNotMatch, q) := by
  unfold TokenQueue.consume_matching TokenQueue.peek
  rw [List.get?_eq_getElem?, List.getElem?_eq_none (by omega)]
  rfl

/-- Witness for the amended C5 at a concrete exhausted cursor. -/
theorem consume_matching_exhausted_witness :
    TokenQueue.consume_matching ⟨[(3 : Nat)], 1⟩ (fun t => t == 3) =
      (.error .didNotMatch, ⟨[3], 1⟩) :=
  consume_matching_exhausted ⟨[3], 1⟩ (fun t => t == 3) rfl

/-- Claim C6, counterexample: on an exhausted cursor `consume` (which
increments first and only then reads `prev`) fails with the
couldn't-read-prev error, while `peek` fails with the empty-queue error;
the two failures are different, so `consume` does not fail the same way
as `peek`. -/
theorem consume_empty_counterexample :
    (TokenQueue.consume ⟨([] : List Nat), 0⟩).1 = .error .prevFail ∧
    TokenQueue.peek ⟨([] : List Nat), 0⟩ = .error .emptyQueue ∧
    (TokenQueue.consume ⟨([] : List Nat), 0⟩).1 ≠ .error .emptyQueue ∧
    (TokenQueue.consume ⟨([] : List Nat), 0⟩).2.idx = 1 :=
  ⟨rfl, rfl, by
    intro h
    have h2 : (Except.error PErr.prevFail : Except PErr Nat) =
        .error .emptyQueue := by rw [← h]; rfl
    have h3 := Except.error.inj h2
    revert h3
    decide, by decide⟩

/-- Claim C6 (amended): `consume` on an exhausted cursor fails with the
couldn't-read-prev error (not `peek`'s empty-queue error) and still
increments the position past the length; on a non-exhausted cursor it
advances the position by one and returns the token just passed. -/
theorem consume_spec {T : Type} (q : TokenQueue T)
    (hL : q.tokens.length + 1 < USIZE) :
    (q.idx = q.tokens.length →
      q.consume = (.error .prevFail, { q with idx := q.idx + 1 })) ∧
    (∀ h : q.idx < q.tokens.length,
      q.consume = (.ok (q.tokens.get ⟨q.idx, h⟩), { q with idx := q.idx + 1 })) := by
  constructor
  · intro he
    have hinc := increment_eq q (by omega)
    unfold TokenQueue.consume
    rw [hinc]
    unfold TokenQueue.prev
    rw [prev_index_eq (q.idx + 1) (by omega) (by omega)]
    simp only [Nat.add_sub_cancel]
    rw [List.get?_eq_getElem?, List.getElem?_eq_none (by omega)]
  · intro h
    have hinc := increment_eq q (by omega)
    unfold TokenQueue.consume
    rw [hinc]
    unfold TokenQueue.prev
    rw [prev_index_eq (q.idx + 1) (by omega) (by omega)]
    simp only [Nat.add_sub_cancel]
    rw [List.get?_eq_getElem?, List.getElem?_eq_getElem h]
    simp [List.get_eq_getElem]

/-- Witness for the amended C6: the exhausted case on a one-token cursor
and the successful case on a fresh one. -/
theorem consume_spec_witness :
    TokenQueue.consume ⟨[(8 : Nat)], 1⟩ = (.error .prevFail, ⟨[8], 2⟩) ∧
    TokenQueue.consume ⟨[(8 : Nat)], 0⟩ = (.ok 8, ⟨[8], 1⟩) :=
  ⟨(consume_spec ⟨[8], 1⟩ (by decide)).1 rfl,
   (consume_spec ⟨[8], 0⟩ (by decide)).2 (by decide)⟩

/-- Claim C7: `prev` on a cursor from which nothing has been consumed
(position 0) returns the typed couldn't-read-prev failure: the `idx - 1`
subtraction wraps around to `2 ^ 64 - 1` (release-profile `usize`
semantics) and the out-of-bounds `get` yields the error value.  (Under
debug-profile overflow checks the same subtraction would abort instead.) -/
theorem prev_unconsumed_typed_error {T : Type} (q : TokenQueue T)
    (h0 : q.idx = 0) (hL : q.tokens.length < USIZE) :
    q.prev = .error .prevFail := by
  unfold TokenQueue.prev
  have hU := usize_pos
  have key : (q.idx + USIZE - 1) % USIZE = USIZE - 1 := by
    rw [h0, Nat.zero_add, Nat.mod_eq_of_lt (by omega)]
  rw [key, List.get?_eq_getElem?, List.getElem?_eq_none (by omega)]

/-- Witness for C7 on a concrete fresh cursor over two tokens. -/
theorem prev_unconsumed_typed_error_witness :
    TokenQueue.prev ⟨[(5 : Nat), 6], 0⟩ = .error .prevFail :=
  prev_unconsumed_typed_error ⟨[5, 6], 0⟩ rfl (by decide)

/-- Claim C8, counterexample: `consume` on an exhausted cursor pushes the
position past the sequence length, and so do `increment` on an exhausted
cursor and `go_to` with an out-of-range index, so the position invariant
`idx ∈ [0, length]` is not preserved by every operation. -/
theorem position_invariant_counterexample :
    ¬ (TokenQueue.consume ⟨([] : List Nat), 0⟩).2.idx ≤
        (TokenQueue.mk ([] : List Nat) 0).tokens.length ∧
    ¬ (TokenQueue.increment ⟨([] : List Nat), 0⟩).idx ≤
        (TokenQueue.mk ([] : List Nat) 0).tokens.length ∧
    ¬ (TokenQueue.go_to ⟨([] : List Nat), 0⟩ 5).idx ≤
        (TokenQueue.mk ([] : List Nat) 0).tokens.length := by
  refine ⟨by decide, by decide, by decide⟩

/-- Claim C8 (amended): the position invariant `idx ≤ length` is
preserved by `consume_matching`, `consume_eq`, in-range `go_to`, `parse`
with a sub-parser returning an in-range position, and by `consume` on a
non-exhausted cursor (all of them also leave the token sequence itself
unchanged); `consume` and `increment` on an exhausted cursor and `go_to`
or a committed parse position beyond the length break it. -/
theorem position_invariant_amended {T A C : Type} [DecidableEq T]
    (q : TokenQueue T) (hinv : q.idx ≤ q.tokens.length)
    (hL : q.tokens.length + 1 < USIZE) :
    (q.idx < q.tokens.length →
      q.consume.2.idx ≤ q.tokens.length ∧ q.consume.2.tokens = q.tokens) ∧
    (∀ f : T → Bool,
      (q.consume_matching f).2.idx ≤ q.tokens.length ∧
      (q.consume_matching f).2.tokens = q.tokens) ∧
    (∀ t : T,
      (q.consume_eq t).2.idx ≤ q.tokens.length ∧
      (q.consume_eq t).2.tokens = q.tokens) ∧
    (∀ i : Nat, i ≤ q.tokens.length →
      (q.go_to i).idx ≤ q.tokens.length ∧ (q.go_to i).tokens = q.tokens) ∧
    (∀ pf : TokenQueue T → Except PErr (A × Nat),
      (∀ v i, pf q = .ok (v, i) → i ≤ q.tokens.length) →
      (q.parse pf).2.idx ≤ q.tokens.length ∧ (q.parse pf).2.tokens = q.tokens) ∧
    (∀ (pwf : TokenQueue T → C → Except PErr (A × Nat)) (ctx : C),
      (∀ v i, pwf q ctx = .ok (v, i) → i ≤ q.tokens.length) →
      (q.parse_with pwf ctx).2.idx ≤ q.tokens.length ∧
      (q.parse_with pwf ctx).2.tokens = q.tokens) := by
  refine ⟨fun hlt => ?_, fun f => ?_, fun t => ?_, fun i hi => ?_,
    fun pf hpf => ?_, fun pwf ctx hpwf => ?_⟩
  · show (q.increment.prev, q.increment).2.idx ≤ _ ∧ _
    rw [increment_eq q (by omega)]
    exact ⟨hlt, rfl⟩
  · cases hg : q.tokens.get? q.idx with
    | none =>
      have hcm : q.consume_matching f = (.error .didNotMatch, q) := by
        unfold TokenQueue.consume_matching TokenQueue.peek
        rw [hg]
        rfl
      rw [hcm]
      exact ⟨hinv, rfl⟩
    | some t =>
      have hlt := lt_length_of_get?_eq_some hg
      have hcm : q.consume_matching f =
          if f t then (q.increment.prev, q.increment)
          else (.error .didNotMatch, q) := by
        unfold TokenQueue.consume_matching TokenQueue.peek
        rw [hg]
        by_cases hf : f t <;> simp [hf]
      rw [hcm]
      by_cases hf : f t
      · rw [if_pos hf, increment_eq q (by omega)]
        exact ⟨hlt, rfl⟩
      · rw [if_neg hf]
        exact ⟨hinv, rfl⟩
  · cases hg : q.tokens.get? q.idx with
    | none =>
      have hce : q.consume_eq t = (.error .emptyQueue, q) := by
        unfold TokenQueue.consume_eq TokenQueue.peek
        rw [hg]
      rw [hce]
      exact ⟨hinv, rfl⟩
    | some front =>
      have hlt := lt_length_of_get?_eq_some hg
      have hce : q.consume_eq t =
          if front = t then (.ok (), q.increment)
          else (.error .consumeEqFail, q) := by
        unfold TokenQueue.consume_eq TokenQueue.peek
        rw [hg]
      rw [hce]
      by_cases hft : front = t
      · rw [if_pos hft, increment_eq q (by omega)]
        exact ⟨hlt, rfl⟩
      · rw [if_neg hft]
        exact ⟨hinv, rfl⟩
  · exact ⟨hi, rfl⟩
  · unfold TokenQueue.parse
    cases hp : pf q with
    | ok vi =>
      obtain ⟨v, i⟩ := vi
      exact ⟨hpf v i hp, rfl⟩
    | error e => exact ⟨hinv, rfl⟩
  · unfold TokenQueue.parse_with
    cases hp : pwf q ctx with
    | ok vi =>
      obtain ⟨v, i⟩ := vi
      exact ⟨hpwf v i hp, rfl⟩
    | error e => exact ⟨hinv, rfl⟩

/-- Witness for the amended C8 on a concrete one-token cursor, exercising
the `consume_matching` and `parse_with` conjuncts. -/
theorem position_invariant_amended_witness :
    (TokenQueue.consume_matching ⟨[(7 : Nat)], 0⟩ (fun _ => true)).2.idx ≤
      (TokenQueue.mk [(7 : Nat)] 0).tokens.length ∧
    (TokenQueue.parse_with ⟨[(7 : Nat)], 0⟩
        (fun _ (_ : Nat) => (Except.ok ((3 : Nat), 1) : Except PErr (Nat × Nat)))
        0).2.idx ≤ (TokenQueue.mk [(7 : Nat)] 0).tokens.length :=
  ⟨((position_invariant_amended (A := Nat) (C := Nat) ⟨[7], 0⟩ (by decide)
      (by decide)).2.1 (fun _ => true)).1,
   ((position_invariant_amended (A := Nat) (C := Nat) ⟨[7], 0⟩ (by decide)
      (by decide)).2.2.2.2.2 (fun _ _ => .ok (3, 1)) 0 (fun v i h => by
        injection h with h2
        injection h2 with h3 h4
        subst h4
        decide)).1⟩

/-- Claim C10: `consume_eq` succeeds and advances the position by exactly
one when the cursor is not exhausted and the front token equals the given
token; with an unequal front token it fails with the consume-eq error and
leaves the position unchanged; on an exhausted cursor it fails with
`peek`'s empty-queue error and leaves the position unchanged. -/
theorem consume_eq_spec {T : Type} [DecidableEq T] (q : TokenQueue T)
    (t : T) (hL : q.tokens.length + 1 < USIZE) :
    (∀ h : q.idx < q.tokens.length,
      (q.tokens.get ⟨q.idx, h⟩ = t →
        q.consume_eq t = (.ok (), { q with idx := q.idx + 1 })) ∧
      (q.tokens.get ⟨q.idx, h⟩ ≠ t →
        q.consume_eq t = (.error .consumeEqFail, q))) ∧
    (q.tokens.length ≤ q.idx → q.consume_eq t = (.error .emptyQueue, q)) := by
  constructor
  · intro h
    have hpeek : q.peek = .ok (q.tokens.get ⟨q.idx, h⟩) := by
      unfold TokenQueue.peek
      rw [List.get?_eq_getElem?, List.getElem?_eq_getElem h]
      simp [List.get_eq_getElem]
    constructor
    · intro heq
      rw [List.get_eq_getElem] at heq
      unfold TokenQueue.consume_eq
      rw [hpeek, increment_eq q (by omega)]
      simp [List.get_eq_getElem, heq]
    · intro hne
      rw [List.get_eq_getElem] at hne
      unfold TokenQueue.consume_eq
      rw [hpeek]
      simp [List.get_eq_getElem, hne]
  · intro hge
    have hpeek : q.peek = .error .emptyQueue := by
      unfold TokenQueue.peek
      rw [List.get?_eq_getElem?, List.getElem?_eq_none hge]
    unfold TokenQueue.consume_eq
    rw [hpeek]

/-- Witness for C10: the three cases on concrete cursors. -/
theorem consume_eq_spec_witness :
    TokenQueue.consume_eq ⟨[(4 : Nat), 9], 0⟩ 4 = (.ok (), ⟨[4, 9], 1⟩) ∧
    TokenQueue.consume_eq ⟨[(4 : Nat), 9], 0⟩ 9 =
      (.error .consumeEqFail, ⟨[4, 9], 0⟩) ∧
    TokenQueue.consume_eq ⟨[(4 : Nat), 9], 2⟩ 4 =
      (.error .emptyQueue, ⟨[4, 9], 2⟩) :=
  ⟨((consume_eq_spec ⟨[4, 9], 0⟩ 4 (by decide)).1 (by decide)).1 rfl,
   ((consume_eq_spec ⟨[4, 9], 0⟩ 9 (by decide)).1 (by decide)).2 (by decide),
   (consume_eq_spec ⟨[4, 9], 2⟩ 4 (by decide)).2 (by decide)⟩

end Rlrl
